import Mathlib

/-!
Shallow embedding of `message_tagging_service/tagging_service.py`.

Python values parsed from YAML (strings, booleans, null, lists, mappings)
are modelled by `Value`; Python exceptions by `PyErr`; fallible Python
code returns `Except PyErr _`.  The regular-expression engine models the
subset of Python `re` used by the rule files: literal characters,
escaped literal characters, the class `\d`, the quantifier `+`, and
named groups `(?P<name>...)`; patterns outside this subset fail to
compile (`PyErr.reError`).
-/

/-- A Python value as parsed from YAML by `yaml.safe_load`. -/
inductive Value where
  | str (s : String)
  | bool (b : Bool)
  | null
  | list (xs : List Value)
  | dict (kvs : List (String × Value))
deriving Repr

/-- A Python exception, by class.  `valueError` carries the name of the
missing rule-definition property (the source formats it into the message). -/
inductive PyErr where
  | keyError
  | typeError
  | attributeError
  | indexError
  | valueError (missing : String)
  | reError
deriving Repr, DecidableEq

/-- First value bound to a key in an association list (Python `dict` lookup;
YAML mappings have unique keys). -/
def lookupKV : List (String × Value) → String → Option Value
  | [], _ => none
  | (k, v) :: rest, key => if k = key then some v else lookupKV rest key

/-- Python `key in d` on a dict. -/
def hasKey (kvs : List (String × Value)) (key : String) : Bool :=
  (lookupKV kvs key).isSome

/-- Python `d[key]` with a string key: `KeyError` when a dict lacks the key,
`TypeError` when the receiver is not a dict. -/
def pySubscriptStr (v : Value) (key : String) : Except PyErr Value :=
  match v with
  | .dict kvs =>
    match lookupKV kvs key with
    | some w => .ok w
    | none => .error .keyError
  | _ => .error .typeError

/-- Python `d.get(key)`: `AttributeError` when the receiver is not a dict. -/
def pyDictGet (v : Value) (key : String) : Except PyErr (Option Value) :=
  match v with
  | .dict kvs => .ok (lookupKV kvs key)
  | _ => .error .attributeError

/-- Python `d.get(key, default)`: the default is used only when the key is
absent (a key explicitly bound to null still yields null). -/
def pyDictGetD (v : Value) (key : String) (dflt : Value) : Except PyErr Value :=
  match v with
  | .dict kvs => .ok ((lookupKV kvs key).getD dflt)
  | _ => .error .attributeError

/-- Collapse an explicit Python `None` into absence: models the result of an
`is None` test applied to a `.get` result. -/
def noneCollapse : Option Value → Option Value
  | some .null => none
  | o => o

/-- Python `v[0]`: head of a list (`IndexError` when empty), first character
of a string, `KeyError` on a dict (string keys never equal `0`), `TypeError`
otherwise. -/
def pySubscript0 (v : Value) : Except PyErr Value :=
  match v with
  | .list (x :: _) => .ok x
  | .list [] => .error .indexError
  | .dict _ => .error .keyError
  | .str s =>
    match s.data with
    | c :: _ => .ok (.str (String.mk [c]))
    | [] => .error .indexError
  | _ => .error .typeError

/-- Abstract syntax of the supported regular-expression subset. -/
inductive RE where
  | eps
  | lit (c : Char)
  | digit
  | seq (a b : RE)
  | plus (a : RE)
  | group (name : String) (a : RE)
deriving Repr

/-- Whether the pattern declares a named capture group: models
`match.groupdict()` being non-empty (Python populates `groupdict` from the
pattern's named groups, so this is a syntactic property of the pattern). -/
def RE.hasGroup : RE → Bool
  | .eps => false
  | .lit _ => false
  | .digit => false
  | .seq a b => a.hasGroup || b.hasGroup
  | .plus a => a.hasGroup
  | .group _ _ => true

/-- Regex metacharacters: a bare occurrence is not a literal. -/
def reSpecial (c : Char) : Bool :=
  c = '(' || c = ')' || c = '+' || c = '*' || c = '?' || c = '[' || c = ']' ||
  c = '|' || c = '.' || c = '^' || c = '$' || c = '\\' || c = '\x7b' || c = '\x7d'

mutual

/-- Parse a sequence of atoms with optional postfix `+`, stopping at `)` or
at the end of input.  Fuel-indexed so the definition is structural. -/
def parseSeqF : Nat → List Char → Option (RE × List Char)
  | 0, _ => none
  | _ + 1, [] => some (.eps, [])
  | fuel + 1, cs =>
    match cs with
    | ')' :: rest => some (.eps, ')' :: rest)
    | _ =>
      match parseAtomF fuel cs with
      | none => none
      | some (a, rest) =>
        let ar : RE × List Char :=
          match rest with
          | '+' :: rest2 => (.plus a, rest2)
          | _ => (a, rest)
        match parseSeqF fuel ar.2 with
        | none => none
        | some (b, rest3) => some (.seq ar.1 b, rest3)

/-- Parse one atom: an escaped literal, `\d`, a named group `(?P<name>...)`,
or a literal character. -/
def parseAtomF : Nat → List Char → Option (RE × List Char)
  | 0, _ => none
  | fuel + 1, cs =>
    match cs with
    | '\\' :: 'd' :: rest => some (.digit, rest)
    | '\\' :: c :: rest => if c.isAlphanum then none else some (.lit c, rest)
    | '(' :: '?' :: 'P' :: '<' :: rest =>
      let nameCs := rest.takeWhile (fun c => c ≠ '>')
      match rest.dropWhile (fun c => c ≠ '>') with
      | '>' :: rest2 =>
        match parseSeqF fuel rest2 with
        | none => none
        | some (inner, rest3) =>
          match rest3 with
          | ')' :: rest4 => some (.group (String.mk nameCs) inner, rest4)
          | _ => none
      | _ => none
    | c :: rest => if reSpecial c then none else some (.lit c, rest)
    | [] => none

end

/-- Compile a pattern string, `none` when the pattern is invalid or outside
the supported subset (Python raises `re.error` for invalid patterns). -/
def compileRE (s : String) : Option RE :=
  match parseSeqF (s.length + 1) s.data with
  | some (r, []) => some r
  | _ => none

/-- Named-group captures of one match, in capture order. -/
abbrev Groups := List (String × String)

/-- Size of a pattern, used to bound the matcher's fuel. -/
def reSize : RE → Nat
  | .eps => 1
  | .lit _ => 1
  | .digit => 1
  | .seq a b => reSize a + reSize b + 1
  | .plus a => reSize a + 1
  | .group _ a => reSize a + 1

/-- All ways the pattern can match a prefix of the input, as
`(consumed, rest, groups)` triples in backtracking priority order: greedy
`+`, alternatives of the left factor first — the order Python's engine
explores.  Fuel-indexed; with ample fuel the list is exact. -/
def reMatch : Nat → RE → List Char → List (List Char × List Char × Groups)
  | 0, _, _ => []
  | _ + 1, .eps, s => [([], s, [])]
  | _ + 1, .lit _, [] => []
  | _ + 1, .lit c, x :: xs => if x = c then [([x], xs, [])] else []
  | _ + 1, .digit, [] => []
  | _ + 1, .digit, x :: xs => if x.isDigit then [([x], xs, [])] else []
  | fuel + 1, .seq a b, s =>
    (reMatch fuel a s).flatMap fun (ca, ra, ga) =>
      (reMatch fuel b ra).map fun (cb, rb, gb) => (ca ++ cb, rb, ga ++ gb)
  | fuel + 1, .plus a, s =>
    (reMatch fuel a s).flatMap fun (ca, ra, ga) =>
      if ca.isEmpty then [(ca, ra, ga)]
      else
        ((reMatch fuel (.plus a) ra).map fun (cb, rb, gb) => (ca ++ cb, rb, ga ++ gb))
          ++ [(ca, ra, ga)]
  | fuel + 1, .group n a, s =>
    (reMatch fuel a s).map fun (c, r, g) => (c, r, g ++ [(n, String.mk c)])

/-- Ample fuel for `reMatch` on the given pattern and input. -/
def matchFuel (r : RE) (s : List Char) : Nat :=
  (reSize r + 2) * (s.length + 2)

/-- Scan for the leftmost match, returning
`(text before, consumed, rest, groups)`: the semantics of Python's
unanchored `re.search`. -/
def reSearchGo (r : RE) (pre rem : List Char) :
    Option (List Char × List Char × List Char × Groups) :=
  match reMatch (matchFuel r rem) r rem with
  | (c, rest, g) :: _ => some (pre, c, rest, g)
  | [] =>
    match rem with
    | [] => none
    | c :: cs => reSearchGo r (pre ++ [c]) cs

/-- Leftmost unanchored match of a compiled pattern in an input. -/
def reSearchSplit (r : RE) (s : List Char) :
    Option (List Char × List Char × List Char × Groups) :=
  reSearchGo r [] s

/-- The value a named group captured (the last capture wins, as in Python). -/
def lookupLastGroup (gs : Groups) (n : String) : Option String :=
  ((gs.filter (fun p => p.1 = n)).getLast?).map (fun p => p.2)

/-- Expand a replacement template: literal characters, `\g<name>` named-group
references and `\\`; other escapes are outside the supported subset. -/
def expandTF : Nat → List Char → Groups → Except PyErr (List Char)
  | 0, _, _ => .error .reError
  | fuel + 1, cs, gs =>
    match cs with
    | [] => .ok []
    | '\\' :: 'g' :: '<' :: rest =>
      let nameCs := rest.takeWhile (fun c => c ≠ '>')
      match rest.dropWhile (fun c => c ≠ '>') with
      | '>' :: rest2 =>
        match lookupLastGroup gs (String.mk nameCs) with
        | some v =>
          match expandTF fuel rest2 gs with
          | .ok t => .ok (v.data ++ t)
          | .error e => .error e
        | none => .error .reError
      | _ => .error .reError
    | '\\' :: '\\' :: rest =>
      match expandTF fuel rest gs with
      | .ok t => .ok ('\\' :: t)
      | .error e => .error e
    | '\\' :: _ => .error .reError
    | c :: rest =>
      match expandTF fuel rest gs with
      | .ok t => .ok (c :: t)
      | .error e => .error e

/-- Replace every non-overlapping leftmost match in `s` by the expanded
template, accumulating output in `acc`: the loop of Python's `re.sub`. -/
def subLoop : Nat → RE → List Char → List Char → List Char → Except PyErr (List Char)
  | 0, _, _, _, _ => .error .reError
  | fuel + 1, r, tpl, s, acc =>
    match reSearchSplit r s with
    | none => .ok (acc ++ s)
    | some (pre, consumed, rest, gs) =>
      match expandTF (tpl.length + 1) tpl gs with
      | .error e => .error e
      | .ok ex =>
        if consumed.isEmpty then
          match rest with
          | [] => .ok (acc ++ pre ++ ex)
          | c :: cs => subLoop fuel r tpl cs (acc ++ pre ++ ex ++ [c])
        else subLoop fuel r tpl rest (acc ++ pre ++ ex)

/-- Python `re.sub(pat, repl, s)`: the pattern is compiled first, then the
replacement must be a string (`TypeError` otherwise). -/
def reSubV (pat : String) (repl : Value) (s : String) : Except PyErr String :=
  match compileRE pat with
  | none => .error .reError
  | some r =>
    match repl with
    | .str tpl =>
      match subLoop (s.length + 1) r tpl.data s.data [] with
      | .ok cs => .ok (String.mk cs)
      | .error e => .error e
    | _ => .error .typeError

/-- Quote character Python `repr` picks for a string: single quotes unless the
string contains a single quote and no double quote. -/
def pyQuoteChar (s : String) : Char :=
  if (s.data.any (fun c => c = Char.ofNat 39)) && !(s.data.any (fun c => c = Char.ofNat 34))
  then Char.ofNat 34
  else Char.ofNat 39

/-- Escaping of one character inside a Python string repr. -/
def pyEscChar (q c : Char) : List Char :=
  if c = '\\' then ['\\', '\\']
  else if c = q then ['\\', q]
  else if c = Char.ofNat 10 then ['\\', 'n']
  else if c = Char.ofNat 9 then ['\\', 't']
  else if c = Char.ofNat 13 then ['\\', 'r']
  else [c]

/-- Python `repr` of a string. -/
def pyReprStr (s : String) : String :=
  let q := pyQuoteChar s
  String.mk (q :: (s.data.flatMap (pyEscChar q) ++ [q]))

mutual

/-- Python `repr` of a value. -/
def pyRepr : Value → String
  | .str s => pyReprStr s
  | .bool b => if b then "True" else "False"
  | .null => "None"
  | .list xs => "[" ++ String.intercalate ", " (pyReprList xs) ++ "]"
  | .dict kvs => "\x7b" ++ String.intercalate ", " (pyReprKVs kvs) ++ "\x7d"
termination_by structural v => v

/-- Reprs of the elements of a list value. -/
def pyReprList : List Value → List String
  | [] => []
  | x :: xs => pyRepr x :: pyReprList xs
termination_by structural xs => xs

/-- Reprs of the `key: value` items of a dict value. -/
def pyReprKVs : List (String × Value) → List String
  | [] => []
  | (k, v) :: rest => (pyReprStr k ++ ": " ++ pyRepr v) :: pyReprKVs rest
termination_by structural kvs => kvs

end

/-- Python `str()` of a value: a string is returned unquoted, anything else
renders as its repr (so `str(['f29'])` is `['f29']` with quoted elements). -/
def pyStr : Value → String
  | .str s => s
  | v => pyRepr v

mutual

/-- Python `==` on values: structural equality; lists compare elementwise in
order, dicts compare per key ignoring order. -/
def pyEq : Value → Value → Bool
  | .str x, .str y => x == y
  | .bool x, .bool y => x == y
  | .null, .null => true
  | .list xs, .list ys => pyEqList xs ys
  | .dict xs, .dict ys =>
    xs.length == ys.length && pyEqSub xs ys
  | _, _ => false
termination_by structural a _ => a

/-- Python `==` on lists, elementwise. -/
def pyEqList : List Value → List Value → Bool
  | [], [] => true
  | x :: xs, y :: ys => pyEq x y && pyEqList xs ys
  | _, _ => false
termination_by structural xs _ => xs

/-- Every key of the first dict is bound in the second to an equal value. -/
def pyEqSub : List (String × Value) → List (String × Value) → Bool
  | [], _ => true
  | (k, v) :: rest, ys =>
    (match lookupKV ys k with
     | some w => pyEq v w
     | none => false) && pyEqSub rest ys
termination_by structural xs _ => xs

end

/-- The raw mapping a rule definition is constructed from. -/
abbrev RuleData := List (String × Value)

/-- The evaluation-scoped accumulator `self._regex_has_named_group`:
`(regex, matched value)` pairs whose pattern declared a named group. -/
abbrev GState := List (String × String)

/-- Result of `RuleDef.match`; its Python truthiness is the `matched` flag,
`dest_tag` defaults to `None`. -/
structure RuleMatch where
  matched : Bool
  dest_tag : Option Value := none
deriving Repr

/-- `RuleDef.__init__`: requires the properties `id`, `type` and
`destinations` (in that order), raising `ValueError` for the first missing
one, and otherwise stores the raw mapping unchanged. -/
def ruleDefInit (data : RuleData) : Except PyErr RuleData :=
  if hasKey data "id" = false then .error (.valueError "id")
  else if hasKey data "type" = false then .error (.valueError "type")
  else if hasKey data "destinations" = false then .error (.valueError "destinations")
  else .ok data

/-- The `rule` property: `None` both when the key is absent and when YAML
parsed an empty section (explicit null). -/
def ruleOf (data : RuleData) : Option Value :=
  noneCollapse (lookupKV data "rule")

/-- The loop of `RuleDef.find_diff_value` over the candidate values:
`re.search(regex, value)` per candidate, first match wins; a match whose
pattern has a named group appends `(regex, value)` to the accumulator. -/
def fdvLoop (regex : Value) : List Value → GState → Except PyErr (Bool × GState)
  | [], g => .ok (false, g)
  | value :: rest, g =>
    match regex with
    | .str pat =>
      match compileRE pat with
      | none => .error .reError
      | some r =>
        match value with
        | .str s =>
          match reSearchSplit r s.data with
          | some _ => .ok (true, if r.hasGroup then g ++ [(pat, s)] else g)
          | none => fdvLoop regex rest g
        | _ => .error .typeError
    | _ => .error .typeError

/-- `RuleDef.find_diff_value`: a list value supplies its elements as
candidates, any other value is the single candidate. -/
def find_diff_value (regex : Value) (mmd_property_value : Value) (g : GState) :
    Except PyErr (Bool × GState) :=
  match mmd_property_value with
  | .list xs => fdvLoop regex xs g
  | w => fdvLoop regex [w] g

/-- `RuleDef.find_diff_list`: OR over the rule's list of regexes, first
match wins. -/
def find_diff_list (match_candidates : List Value) (mmd_property_value : Value)
    (g : GState) : Except PyErr (Bool × GState) :=
  match match_candidates with
  | [] => .ok (false, g)
  | regex :: rest =>
    match find_diff_value regex mmd_property_value g with
    | .error e => .error e
    | .ok (true, g2) => .ok (true, g2)
    | .ok (false, g2) => find_diff_list rest mmd_property_value g2

mutual

/-- The body dispatch of `RuleDef.find_diff_dict` for one subkey's expected
value: dict recurses, list goes through `find_diff_list`, anything else is a
single regex for `find_diff_value`. -/
def find_diff_step (value : Value) (check : Value) (g : GState) :
    Except PyErr (Bool × GState) :=
  match value with
  | .dict kvs => find_diff_dict kvs check g
  | .list cands => find_diff_list cands check g
  | v => find_diff_value v check g
termination_by structural value

/-- `RuleDef.find_diff_dict`: AND over the expected mapping's items; a
subkey absent from (or null in) the checked mapping fails the whole dict
immediately, and the first failing subkey short-circuits the rest. -/
def find_diff_dict (rule_kvs : List (String × Value)) (check_dict : Value)
    (g : GState) : Except PyErr (Bool × GState) :=
  match rule_kvs with
  | [] => .ok (true, g)
  | (key, value) :: rest =>
    match pyDictGet check_dict key with
    | .error e => .error e
    | .ok o =>
      match noneCollapse o with
      | none => .ok (false, g)
      | some newCheck =>
        match find_diff_step value newCheck g with
        | .error e => .error e
        | .ok (false, g2) => .ok (false, g2)
        | .ok (true, g2) => find_diff_dict rest check_dict g2
termination_by structural rule_kvs

end

/-- One iteration of the property loop in `RuleDef.match`: the boolean it
appends to `self._property_matches` plus the updated named-group
accumulator.  `scratch`/`development` compare by Python equality with a
`False` default and no regex logic; other properties look the value up in
`modulemd['data']` (absence records a non-match), then dispatch on the
shape of the RULE's expected value: a dict recurses over `value[0]`, a list
ORs its regexes, a scalar regex is searched in `str(value)`. -/
def matchProp (property : String) (expected : Value) (modulemd : Value)
    (g : GState) : Except PyErr (Bool × GState) :=
  if property = "scratch" then
    match pySubscriptStr modulemd "data" with
    | .error e => .error e
    | .ok d =>
      match pyDictGetD d "scratch" (.bool false) with
      | .error e => .error e
      | .ok mmd_value => .ok (pyEq expected mmd_value, g)
  else if property = "development" then
    match pySubscriptStr modulemd "data" with
    | .error e => .error e
    | .ok d =>
      match pyDictGetD d "development" (.bool false) with
      | .error e => .error e
      | .ok mmd_value => .ok (pyEq expected mmd_value, g)
  else
    match pySubscriptStr modulemd "data" with
    | .error e => .error e
    | .ok d =>
      match pyDictGet d property with
      | .error e => .error e
      | .ok o =>
        match noneCollapse o with
        | none => .ok (false, g)
        | some value_to_check =>
          match expected with
          | .dict kvs =>
            match pySubscript0 value_to_check with
            | .error e => .error e
            | .ok v0 => find_diff_dict kvs v0 g
          | .list cands => find_diff_list cands value_to_check g
          | _ => find_diff_value expected (.str (pyStr value_to_check)) g

/-- The property loop of `RuleDef.match`: one boolean per rule property in
iteration order, threading the named-group accumulator. -/
def matchProps (props : List (String × Value)) (modulemd : Value)
    (pms : List Bool) (g : GState) : Except PyErr (List Bool × GState) :=
  match props with
  | [] => .ok (pms, g)
  | (property, expected) :: rest =>
    match matchProp property expected modulemd g with
    | .error e => .error e
    | .ok (b, g2) => matchProps rest modulemd (pms ++ [b]) g2

/-- `RuleDef.match` on a fresh instance: no rule predicate matches
unconditionally with the literal destinations; otherwise the rule matches
when every property matched, and the destination is the literal
destinations unless named-group pairs were recorded, in which case it is
`re.sub(regex, destinations, value)` of the LAST recorded pair (all pairs
are substituted, the last result is kept). -/
def matchRule (data : RuleData) (modulemd : Value) : Except PyErr RuleMatch :=
  match ruleOf data with
  | none =>
    match lookupKV data "destinations" with
    | none => .error .keyError
    | some dest => .ok ⟨true, some dest⟩
  | some (.dict props) =>
    match matchProps props modulemd [] [] with
    | .error e => .error e
    | .ok (pms, g) =>
      if pms.all (fun b => b) then
        match lookupKV data "destinations" with
        | none => .error .keyError
        | some dest =>
          match g with
          | [] => .ok ⟨true, some dest⟩
          | _ =>
            match g.mapM (fun p => reSubV p.1 dest p.2) with
            | .error e => .error e
            | .ok ts =>
              match ts.getLast? with
              | some t => .ok ⟨true, some (.str t)⟩
              | none => .error .indexError
      else .ok ⟨false, none⟩
  | some _ => .error .attributeError

/-- The rule-evaluation core of `handle`: construct a fresh `RuleDef` per
raw mapping, evaluate it against the parsed modulemd, and keep the truthy
outcomes in rule order (`list(filter(truth, ...))`). -/
def rule_matches_of (rule_defs : List RuleData) (modulemd : Value) :
    Except PyErr (List RuleMatch) :=
  match rule_defs with
  | [] => .ok []
  | rd :: rest =>
    match ruleDefInit rd with
    | .error e => .error e
    | .ok d =>
      match matchRule d modulemd with
      | .error e => .error e
      | .ok m =>
        match rule_matches_of rest modulemd with
        | .error e => .error e
        | .ok ms => .ok (if m.matched then m :: ms else ms)

/-- `dest_tags = [item.dest_tag for item in rule_matches]` in `handle`. -/
def dest_tags_of (rule_defs : List RuleData) (modulemd : Value) :
    Except PyErr (List (Option Value)) :=
  match rule_matches_of rule_defs modulemd with
  | .ok ms => .ok (ms.map (fun m => m.dest_tag))
  | .error e => .error e

/-- Observable interactions of `tag_build` with the koji session. -/
inductive KojiAction where
  | login
  | tagBuildCall (tag : String) (nvr : String)
  | logFailure (tag : String) (nvr : String)
  | logout
deriving Repr, DecidableEq

/-- The tagging loop of `tag_build`: each tag's `tagBuild` call is attempted;
an exception (`outcome tag = some e`) is caught by the `try/except`, logged,
and the loop continues with the next tag. -/
def tagLoop (outcome : String → Option PyErr) (nvr : String) :
    List String → List KojiAction
  | [] => []
  | tag :: rest =>
    (match outcome tag with
     | none => [.tagBuildCall tag nvr]
     | some _ => [.tagBuildCall tag nvr, .logFailure tag nvr]) ++ tagLoop outcome nvr rest

/-- `tag_build`: session login, one guarded `tagBuild` attempt per
destination tag, then logout. -/
def tag_build (outcome : String → Option PyErr) (nvr : String)
    (dest_tags : List String) : List KojiAction :=
  .login :: (tagLoop outcome nvr dest_tags ++ [.logout])


/-- A rule whose single predicate property is a named-group regex over
`stream`, with a back-reference template as destination. -/
def namedGroupRule : RuleData :=
  [("id", .str "r-named"), ("type", .str "module"),
   ("rule", .dict [("stream", .str "(?P<ver>f\\d+)")]),
   ("destinations", .str "tag-\\g<ver>")]

/-- A modulemd document whose `data.stream` is the given string. -/
def streamDoc (s : String) : Value := .dict [("data", .dict [("stream", .str s)])]

/-- A rule with the nested-dict `dependencies` predicate of the spec's
example. -/
def depsRule : RuleData :=
  [("id", .str "r-deps"), ("type", .str "module"),
   ("rule", .dict [("dependencies",
     .dict [("requires", .dict [("platform", .str "f\\d+")])])]),
   ("destinations", .str "tag-deps")]

/-- A document where `data.dependencies` IS the nested mapping, so that
`data.dependencies.requires.platform = ["f29"]` read as nested mappings. -/
def depsDocNested : Value :=
  .dict [("data", .dict [("dependencies",
    .dict [("requires", .dict [("platform", .list [.str "f29"])])])])]

/-- A document where `data.dependencies` is a one-element list of mappings
(the actual modulemd shape the code expects). -/
def depsDocList : Value :=
  .dict [("data", .dict [("dependencies",
    .list [.dict [("requires", .dict [("platform", .list [.str "f29"])])]])])]

/-- The rule `{scratch: true}` of the spec's example. -/
def scratchRule : RuleData :=
  [("id", .str "r-scratch"), ("type", .str "module"),
   ("rule", .dict [("scratch", .bool true)]),
   ("destinations", .str "tag-x")]

/-- Document with `data.scratch = true`. -/
def scratchDocTrue : Value := .dict [("data", .dict [("scratch", .bool true)])]

/-- Document with no `scratch` property. -/
def scratchDocAbsent : Value := .dict [("data", .dict [("name", .str "n")])]

/-- A rule with no `rule` predicate at all. -/
def noRuleRule : RuleData :=
  [("id", .str "r-any"), ("type", .str "module"),
   ("destinations", .str "tag-any")]

/-- The candidate values `find_diff_value` iterates over: the elements of a
list value, otherwise the value itself as single candidate. -/
def strCandidates (v : Value) : List Value :=
  match v with
  | .list xs => xs
  | w => [w]

/-- The underlying string of a string value. -/
def valAsStr : Value → Option String
  | .str s => some s
  | _ => none

/-- An expected rule value that is neither a dict nor a list (the scalar
regex case of the property dispatch). -/
def notDictList : Value → Bool
  | .dict _ => false
  | .list _ => false
  | _ => true

/-- The `(tag, nvr)` of a koji `tagBuild` call, for trace projections. -/
def kojiAttempt : KojiAction → Option (String × String)
  | .tagBuildCall t n => some (t, n)
  | _ => none

theorem find_diff_value_eq_fdvLoop (regex v : Value) (g : GState) :
    find_diff_value regex v g = fdvLoop regex (strCandidates v) g := by
  cases v <;> rfl

theorem matchProps_extends (m : Value) :
    ∀ (props : List (String × Value)) (pms : List Bool) (g : GState)
      (pms2 : List Bool) (g2 : GState),
      matchProps props m pms g = .ok (pms2, g2) → ∃ tl, pms2 = pms ++ tl := by
  intro props
  induction props with
  | nil =>
    intro pms g pms2 g2 h
    simp only [matchProps, Except.ok.injEq, Prod.mk.injEq] at h
    exact ⟨[], by simp [h.1]⟩
  | cons pe rest ih =>
    intro pms g pms2 g2 h
    obtain ⟨p, e⟩ := pe
    cases hm : matchProp p e m g with
    | error err => simp [matchProps, hm] at h
    | ok bg =>
      obtain ⟨b, g3⟩ := bg
      simp only [matchProps, hm] at h
      obtain ⟨tl, htl⟩ := ih (pms ++ [b]) g3 pms2 g2 h
      exact ⟨b :: tl, by simpa using htl⟩

theorem matchProps_mem_false (m : Value) (p : String) (e : Value)
    (hstep : ∀ g, matchProp p e m g = .ok (false, g)) :
    ∀ (props : List (String × Value)) (pms : List Bool) (g : GState)
      (pms2 : List Bool) (g2 : GState),
      (p, e) ∈ props →
      matchProps props m pms g = .ok (pms2, g2) →
      false ∈ pms2 := by
  intro props
  induction props with
  | nil => intro pms g pms2 g2 hmem _; cases hmem
  | cons qf rest ih =>
    intro pms g pms2 g2 hmem h
    obtain ⟨q, f⟩ := qf
    rcases List.mem_cons.mp hmem with heq | hmem2
    · injection heq.symm with h1 h2
      subst h1; subst h2
      simp only [matchProps, hstep g] at h
      obtain ⟨tl, htl⟩ := matchProps_extends m rest (pms ++ [false]) g pms2 g2 h
      simp [htl]
    · cases hm : matchProp q f m g with
      | error err => simp [matchProps, hm] at h
      | ok bg =>
        obtain ⟨b, g3⟩ := bg
        simp only [matchProps, hm] at h
        exact ih (pms ++ [b]) g3 pms2 g2 hmem2 h

theorem all_id_eq_false_of_mem {pms : List Bool} (h : false ∈ pms) :
    pms.all (fun b => b) = false := by
  cases hall : pms.all (fun b => b) with
  | false => rfl
  | true => exact absurd (List.all_eq_true.mp hall false h) (by simp)

theorem exceptMapM_ok_of_forall {α β : Type} (f : α → Except PyErr β) :
    ∀ (l : List α), (∀ a ∈ l, ∃ b, f a = .ok b) → ∃ ts, l.mapM f = .ok ts := by
  intro l
  induction l with
  | nil => intro _; exact ⟨[], rfl⟩
  | cons x xs ih =>
    intro hall
    obtain ⟨b, hb⟩ := hall x (by simp)
    obtain ⟨ts, hts⟩ := ih (fun a ha => hall a (by simp [ha]))
    refine ⟨b :: ts, ?_⟩
    rw [List.mapM_cons, hb, hts]
    rfl

theorem exceptMapM_last {α β : Type} (f : α → Except PyErr β) :
    ∀ (l : List α) (ts : List β) (a : α),
      l.mapM f = .ok ts → l.getLast? = some a →
      ∃ b, f a = .ok b ∧ ts.getLast? = some b := by
  intro l
  induction l with
  | nil => intro ts a _ hlast; cases hlast
  | cons x xs ih =>
    intro ts a hmap hlast
    rw [List.mapM_cons] at hmap
    cases hx : f x with
    | error err =>
      rw [hx] at hmap
      exact Except.noConfusion hmap
    | ok b =>
      rw [hx] at hmap
      cases hxs : xs.mapM f with
      | error err =>
        rw [hxs] at hmap
        exact Except.noConfusion hmap
      | ok bs =>
        rw [hxs] at hmap
        replace hmap : (Except.ok (b :: bs) : Except PyErr (List β)) = Except.ok ts := hmap
        injection hmap with hts
        cases xs with
        | nil =>
          replace hxs : (Except.ok [] : Except PyErr (List β)) = Except.ok bs := hxs
          injection hxs with hbs
          replace hlast : some x = some a := hlast
          injection hlast with hxa
          subst hxa
          subst hts
          subst hbs
          exact ⟨b, hx, rfl⟩
        | cons y ys =>
          rw [List.getLast?_cons_cons] at hlast
          obtain ⟨b2, hfb2, hbslast⟩ := ih bs a hxs hlast
          refine ⟨b2, hfb2, ?_⟩
          subst hts
          cases bs with
          | nil => cases hbslast
          | cons c cs => rw [List.getLast?_cons_cons]; exact hbslast

/-- C6: a rule definition whose `rule` predicate is absent (missing key, or
an empty YAML section parsed as null) matches every metadata document
unconditionally, and the outcome's destination is the literal
`destinations` field unchanged. -/
theorem matchRule_no_rule_unconditional (data : RuleData) (m : Value) (dest : Value)
    (hrule : ruleOf data = none)
    (hdest : lookupKV data "destinations" = some dest) :
    matchRule data m = .ok ⟨true, some dest⟩ := by
  simp [matchRule, hrule, hdest]

/-- Witness for C6 at a concrete no-predicate rule and document. -/
theorem matchRule_no_rule_unconditional_witness :
    matchRule noRuleRule (.dict []) = .ok ⟨true, some (.str "tag-any")⟩ :=
  matchRule_no_rule_unconditional noRuleRule (.dict []) (.str "tag-any") rfl rfl

/-- C8: constructing a `RuleDef` from a raw mapping lacking `id`, `type` or
`destinations` fails at construction time with the construction-time error
(Python's `ValueError`, the spec's ConfigurationError); with all three
fields present construction succeeds. -/
theorem ruleDefInit_required_fields :
    (∀ data : RuleData, hasKey data "id" = false →
      ruleDefInit data = .error (.valueError "id")) ∧
    (∀ data : RuleData, hasKey data "type" = false →
      ∃ n, ruleDefInit data = .error (.valueError n)) ∧
    (∀ data : RuleData, hasKey data "destinations" = false →
      ∃ n, ruleDefInit data = .error (.valueError n)) ∧
    (∀ data : RuleData, hasKey data "id" = true → hasKey data "type" = true →
      hasKey data "destinations" = true → ruleDefInit data = .ok data) := by
  refine ⟨?_, ?_, ?_, ?_⟩
  · intro data h; simp [ruleDefInit, h]
  · intro data h
    cases h1 : hasKey data "id" with
    | false => exact ⟨"id", by simp [ruleDefInit, h1]⟩
    | true => exact ⟨"type", by simp [ruleDefInit, h1, h]⟩
  · intro data h
    cases h1 : hasKey data "id" with
    | false => exact ⟨"id", by simp [ruleDefInit, h1]⟩
    | true =>
      cases h2 : hasKey data "type" with
      | false => exact ⟨"type", by simp [ruleDefInit, h1, h2]⟩
      | true => exact ⟨"destinations", by simp [ruleDefInit, h1, h2, h]⟩
  · intro data h1 h2 h3; simp [ruleDefInit, h1, h2, h3]

/-- Witness for C8 at concrete raw mappings, one per missing field plus the
all-present success case. -/
theorem ruleDefInit_required_fields_witness :
    ruleDefInit [("type", .str "t"), ("destinations", .str "d")]
      = .error (.valueError "id") ∧
    (∃ n, ruleDefInit [("id", .str "i"), ("destinations", .str "d")]
      = .error (.valueError n)) ∧
    (∃ n, ruleDefInit [("id", .str "i"), ("type", .str "t")]
      = .error (.valueError n)) ∧
    ruleDefInit noRuleRule = .ok noRuleRule :=
  ⟨ruleDefInit_required_fields.1 _ rfl,
   ruleDefInit_required_fields.2.1 _ rfl,
   ruleDefInit_required_fields.2.2.1 _ rfl,
   ruleDefInit_required_fields.2.2.2 noRuleRule rfl rfl rfl⟩

theorem tagLoop_filterMap (outcome : String → Option PyErr) (nvr : String) :
    ∀ tags : List String,
      (tagLoop outcome nvr tags).filterMap kojiAttempt =
        tags.map (fun t => (t, nvr)) := by
  intro tags
  induction tags with
  | nil => rfl
  | cons t rest ih =>
    cases h : outcome t <;>
      simp [tagLoop, h, List.filterMap_append, ih, kojiAttempt]

/-- C9: `tag_build` logs in once, then attempts a `tagBuild` call for every
destination tag in order — an exception on one tag is caught, logged, and
does not abort the attempts for the remaining tags — and the session logout
is the last interaction, performed after all assignments were attempted,
also when some of them failed. -/
theorem tag_build_attempts_all_then_logout :
    ∀ (outcome : String → Option PyErr) (nvr : String) (tags : List String),
      (tag_build outcome nvr tags).head? = some .login ∧
      (tag_build outcome nvr tags).getLast? = some .logout ∧
      (tag_build outcome nvr tags).filterMap kojiAttempt =
        tags.map (fun t => (t, nvr)) := by
  intro outcome nvr tags
  refine ⟨rfl, ?_, ?_⟩
  · show (KojiAction.login ::
      (tagLoop outcome nvr tags ++ [KojiAction.logout])).getLast? = some .logout
    rw [← List.cons_append]
    exact List.getLast?_concat _
  · show (KojiAction.login ::
      (tagLoop outcome nvr tags ++ [KojiAction.logout])).filterMap kojiAttempt = _
    simp [List.filterMap_cons, List.filterMap_append,
      tagLoop_filterMap outcome nvr tags, kojiAttempt]

/-- C4: one iteration of the property loop for the special-cased boolean
properties `scratch` and `development` records exactly the Python equality
of the rule's expected value with the document's value, the latter
defaulting to `False` when the property is absent, with no regex logic and
no change to the named-group accumulator; concretely, rule
`{scratch: true}` matches a document with `data.scratch = true` and does
not match a document without a `scratch` property. -/
theorem matchProp_scratch_development_equality :
    (∀ (e m : Value) (g : GState) (dd mv : Value),
      pySubscriptStr m "data" = .ok dd →
      pyDictGetD dd "scratch" (.bool false) = .ok mv →
      matchProp "scratch" e m g = .ok (pyEq e mv, g)) ∧
    (∀ (e m : Value) (g : GState) (dd mv : Value),
      pySubscriptStr m "data" = .ok dd →
      pyDictGetD dd "development" (.bool false) = .ok mv →
      matchProp "development" e m g = .ok (pyEq e mv, g)) ∧
    matchRule scratchRule scratchDocTrue = .ok ⟨true, some (.str "tag-x")⟩ ∧
    matchRule scratchRule scratchDocAbsent = .ok ⟨false, none⟩ := by
  refine ⟨?_, ?_, ?_, ?_⟩
  · intro e m g dd mv h1 h2
    simp [matchProp, h1, h2]
  · intro e m g dd mv h1 h2
    simp [matchProp, h1, h2]
  · rfl
  · rfl

/-- Witness for C4: the equality comparison concretely, for a present
`scratch` (equal) and an absent `development` (defaults to false). -/
theorem matchProp_scratch_development_equality_witness :
    matchProp "scratch" (.bool true) scratchDocTrue []
      = .ok (pyEq (.bool true) (.bool true), []) ∧
    matchProp "development" (.bool true) scratchDocTrue []
      = .ok (pyEq (.bool true) (.bool false), []) :=
  ⟨matchProp_scratch_development_equality.1 (.bool true) scratchDocTrue []
    (.dict [("scratch", .bool true)]) (.bool true) rfl rfl,
   matchProp_scratch_development_equality.2.1 (.bool true) scratchDocTrue []
    (.dict [("scratch", .bool true)]) (.bool false) rfl rfl⟩

theorem matchProp_absent_false (p : String) (e m : Value)
    (dd : List (String × Value))
    (hp1 : p ≠ "scratch") (hp2 : p ≠ "development")
    (h1 : pySubscriptStr m "data" = .ok (.dict dd))
    (h2 : noneCollapse (lookupKV dd p) = none) :
    ∀ g : GState, matchProp p e m g = .ok (false, g) := by
  intro g
  simp [matchProp, hp1, hp2, h1, pyDictGet, h2]

/-- A rule whose predicate names a property documents may lack. -/
def absRule : RuleData :=
  [("id", .str "r-abs"), ("type", .str "module"),
   ("rule", .dict [("platform", .str "f29")]),
   ("destinations", .str "tag-q")]

/-- C5: a non-special property named in a rule's predicate but absent from
the document's `data` mapping records a deterministic non-match for that
property without raising an exception, and consequently any result the
whole rule evaluation returns is a non-match. -/
theorem matchRule_absent_property_nonmatch :
    (∀ (p : String) (e m : Value) (g : GState) (dd : List (String × Value)),
      p ≠ "scratch" → p ≠ "development" →
      pySubscriptStr m "data" = .ok (.dict dd) →
      noneCollapse (lookupKV dd p) = none →
      matchProp p e m g = .ok (false, g)) ∧
    (∀ (data : RuleData) (m : Value) (props : List (String × Value))
      (p : String) (e : Value) (dd : List (String × Value)) (r : RuleMatch),
      ruleOf data = some (.dict props) →
      (p, e) ∈ props →
      p ≠ "scratch" → p ≠ "development" →
      pySubscriptStr m "data" = .ok (.dict dd) →
      noneCollapse (lookupKV dd p) = none →
      matchRule data m = .ok r →
      r.matched = false) := by
  constructor
  · intro p e m g dd hp1 hp2 h1 h2
    exact matchProp_absent_false p e m dd hp1 hp2 h1 h2 g
  · intro data m props p e dd r hrule hmem hp1 hp2 h1 h2 hres
    have hstep := matchProp_absent_false p e m dd hp1 hp2 h1 h2
    cases hmp : matchProps props m [] [] with
    | error err => simp [matchRule, hrule, hmp] at hres
    | ok pg =>
      obtain ⟨pms, g⟩ := pg
      have hfalse : false ∈ pms :=
        matchProps_mem_false m p e hstep props [] [] pms g hmem hmp
      have hall : pms.all (fun b => b) = false := all_id_eq_false_of_mem hfalse
      rw [show matchRule data m = .ok ⟨false, none⟩ from by
        simp [matchRule, hrule, hmp, hall]] at hres
      injection hres with hr
      subst hr
      rfl

/-- Witness for C5: the absent property `platform` concretely records a
non-match and the evaluated rule does not match. -/
theorem matchRule_absent_property_nonmatch_witness :
    matchProp "platform" (.str "f29") scratchDocAbsent [] = .ok (false, []) ∧
    RuleMatch.matched ⟨false, none⟩ = false :=
  ⟨matchRule_absent_property_nonmatch.1 "platform" (.str "f29") scratchDocAbsent []
    [("name", .str "n")] (by decide) (by decide) rfl rfl,
   matchRule_absent_property_nonmatch.2 absRule scratchDocAbsent
    [("platform", .str "f29")] "platform" (.str "f29") [("name", .str "n")]
    ⟨false, none⟩ rfl (by simp) (by decide) (by decide) rfl rfl rfl⟩

theorem matchProp_scalar_eq (p : String) (e m : Value) (g : GState)
    (dd : List (String × Value)) (v : Value)
    (hp1 : p ≠ "scratch") (hp2 : p ≠ "development")
    (hsc : notDictList e = true)
    (h1 : pySubscriptStr m "data" = .ok (.dict dd))
    (h2 : noneCollapse (lookupKV dd p) = some v) :
    matchProp p e m g = find_diff_value e (.str (pyStr v)) g := by
  cases e <;> simp_all [matchProp, hp1, hp2, h1, pyDictGet, h2, notDictList]

theorem pyStr_singleton_list_f29 : pyStr (.list [.str "f29"]) = "['f29']" := rfl

/-- A rule whose scalar regex only matches the quoted list rendering
`['f29']`, not the bare element `f29`. -/
def quotedRule : RuleData :=
  [("id", .str "r-quoted"), ("type", .str "module"),
   ("rule", .dict [("platform", .str "'f29'")]),
   ("destinations", .str "tag-q2")]

/-- Document with `data.platform = ["f29"]`. -/
def quotedDoc : Value := .dict [("data", .dict [("platform", .list [.str "f29"])])]

/-- C10: for a non-special property whose expected rule value is a scalar
(neither dict nor list), a document that has the property is matched by
searching the regex in the `str()` rendering of the WHOLE value — for a
list value the rendering of the entire list (e.g. `['f29']` with quoted
elements), not each element in turn; concretely, the regex `'f29'` (with
quotes) matches the document value `["f29"]` only through that rendering. -/
theorem matchProp_scalar_whole_str :
    (∀ (p : String) (e m : Value) (g : GState)
      (dd : List (String × Value)) (v : Value),
      p ≠ "scratch" → p ≠ "development" →
      notDictList e = true →
      pySubscriptStr m "data" = .ok (.dict dd) →
      noneCollapse (lookupKV dd p) = some v →
      matchProp p e m g = find_diff_value e (.str (pyStr v)) g) ∧
    pyStr (.list [.str "f29"]) = "['f29']" ∧
    matchRule quotedRule quotedDoc = .ok ⟨true, some (.str "tag-q2")⟩ := by
  exact ⟨matchProp_scalar_eq, pyStr_singleton_list_f29, rfl⟩

/-- Witness for C10: the scalar dispatch applied concretely to the list
value `["f29"]`, whose whole-list rendering is what gets searched. -/
theorem matchProp_scalar_whole_str_witness :
    matchProp "platform" (.str "f\\d+") quotedDoc []
      = find_diff_value (.str "f\\d+") (.str (pyStr (.list [.str "f29"]))) [] :=
  matchProp_scalar_whole_str.1 "platform" (.str "f\\d+") quotedDoc []
    [("platform", .list [.str "f29"])] (.list [.str "f29"])
    (by decide) (by decide) rfl rfl rfl

/-- C2 counterexample: for the document in which
`data.dependencies.requires.platform = ["f29"]` holds literally as nested
mappings — `data.dependencies` IS the mapping — the rule
`{dependencies: {requires: {platform: "f\d+"}}}` does not match: evaluation
raises `KeyError`, because `RuleDef.match` subscripts `value_to_check[0]`
before recursing into `find_diff_dict`, and a mapping has no key `0`. -/
theorem matchRule_nested_doc_keyerror :
    matchRule depsRule depsDocNested = .error .keyError := rfl

theorem depsRule_matches_list_doc :
    matchRule depsRule depsDocList = .ok ⟨true, some (.str "tag-deps")⟩ := rfl

/-- C2 (amended): for a nested-mapping rule value on a non-special
property, evaluation recurses via `find_diff_dict` over the FIRST ELEMENT
`value[0]` of the document's corresponding value (the modulemd shape, a
list of mappings), not the value itself; within `find_diff_dict` every
subkey of the expected mapping must exist — a missing (or null) subkey
fails the whole dict predicate immediately — and subkeys combine with AND
semantics, the first failing subkey short-circuiting the rest; concretely
the dependencies rule matches the document with
`data.dependencies = [{requires: {platform: ["f29"]}}]`. -/
theorem find_diff_dict_first_element :
    (∀ (p : String) (m : Value) (kvs : List (String × Value)) (g : GState)
      (dd : List (String × Value)) (v w : Value),
      p ≠ "scratch" → p ≠ "development" →
      pySubscriptStr m "data" = .ok (.dict dd) →
      noneCollapse (lookupKV dd p) = some v →
      pySubscript0 v = .ok w →
      matchProp p (.dict kvs) m g = find_diff_dict kvs w g) ∧
    (∀ (k : String) (vk : Value) (rest : List (String × Value)) (w : Value)
      (g : GState) (o : Option Value),
      pyDictGet w k = .ok o → noneCollapse o = none →
      find_diff_dict ((k, vk) :: rest) w g = .ok (false, g)) ∧
    (∀ (k : String) (vk : Value) (rest : List (String × Value)) (w : Value)
      (g g2 : GState) (o : Option Value) (u : Value),
      pyDictGet w k = .ok o → noneCollapse o = some u →
      find_diff_step vk u g = .ok (false, g2) →
      find_diff_dict ((k, vk) :: rest) w g = .ok (false, g2)) ∧
    (∀ (k : String) (vk : Value) (rest : List (String × Value)) (w : Value)
      (g g2 : GState) (o : Option Value) (u : Value),
      pyDictGet w k = .ok o → noneCollapse o = some u →
      find_diff_step vk u g = .ok (true, g2) →
      find_diff_dict ((k, vk) :: rest) w g = find_diff_dict rest w g2) ∧
    matchRule depsRule depsDocList = .ok ⟨true, some (.str "tag-deps")⟩ := by
  refine ⟨?_, ?_, ?_, ?_, ?_⟩
  · intro p m kvs g dd v w hp1 hp2 h1 h2 h3
    simp [matchProp, hp1, hp2, h1, pyDictGet, h2, h3]
  · intro k vk rest w g o h1 h2
    simp only [find_diff_dict, h1, h2]
  · intro k vk rest w g g2 o u h1 h2 h3
    simp only [find_diff_dict, h1, h2, h3]
  · intro k vk rest w g g2 o u h1 h2 h3
    simp only [find_diff_dict, h1, h2, h3]
  · exact depsRule_matches_list_doc

/-- Witness for C2: each general conjunct applied at a concrete input from
the dependencies example. -/
theorem find_diff_dict_first_element_witness :
    matchProp "dependencies"
        (.dict [("requires", .dict [("platform", .str "f\\d+")])]) depsDocList []
      = find_diff_dict [("requires", .dict [("platform", .str "f\\d+")])]
          (.dict [("requires", .dict [("platform", .list [.str "f29"])])]) [] ∧
    find_diff_dict [("requires", .dict [("platform", .str "f\\d+")])]
        (.dict [("other", .str "x")]) [] = .ok (false, []) ∧
    find_diff_dict [("platform", .str "f30"), ("stream", .str "s")]
        (.dict [("platform", .str "f29"), ("stream", .str "s")]) []
      = .ok (false, []) ∧
    find_diff_dict [("platform", .str "f29"), ("stream", .str "s")]
        (.dict [("platform", .str "f29"), ("stream", .str "s")]) []
      = find_diff_dict [("stream", .str "s")]
          (.dict [("platform", .str "f29"), ("stream", .str "s")]) [] :=
  ⟨find_diff_dict_first_element.1 "dependencies"
      depsDocList [("requires", .dict [("platform", .str "f\\d+")])] []
      [("dependencies",
        .list [.dict [("requires", .dict [("platform", .list [.str "f29"])])]])]
      (.list [.dict [("requires", .dict [("platform", .list [.str "f29"])])]])
      (.dict [("requires", .dict [("platform", .list [.str "f29"])])])
      (by decide) (by decide) rfl rfl rfl,
   find_diff_dict_first_element.2.1 "requires"
      (.dict [("platform", .str "f\\d+")]) [] (.dict [("other", .str "x")]) []
      none rfl rfl,
   find_diff_dict_first_element.2.2.1 "platform" (.str "f30") [("stream", .str "s")]
      (.dict [("platform", .str "f29"), ("stream", .str "s")]) [] []
      (some (.str "f29")) (.str "f29") rfl rfl rfl,
   find_diff_dict_first_element.2.2.2.1 "platform" (.str "f29") [("stream", .str "s")]
      (.dict [("platform", .str "f29"), ("stream", .str "s")]) [] []
      (some (.str "f29")) (.str "f29") rfl rfl rfl⟩

theorem fdvLoop_any (pat : String) (r : RE) (hc : compileRE pat = some r) :
    ∀ (vals : List Value) (ss : List String) (g : GState),
      vals.mapM valAsStr = some ss →
      ∃ g2, fdvLoop (.str pat) vals g =
        .ok (ss.any (fun s => (reSearchSplit r s.data).isSome), g2) := by
  intro vals
  induction vals with
  | nil =>
    intro ss g hss
    replace hss : (some [] : Option (List String)) = some ss := hss
    injection hss with h
    subst h
    exact ⟨g, rfl⟩
  | cons v vs ih =>
    intro ss g hss
    rw [List.mapM_cons] at hss
    cases hv : valAsStr v with
    | none => rw [hv] at hss; exact Option.noConfusion hss
    | some s =>
      rw [hv] at hss
      cases hvs : vs.mapM valAsStr with
      | none => rw [hvs] at hss; exact Option.noConfusion hss
      | some ss2 =>
        rw [hvs] at hss
        replace hss : (some (s :: ss2) : Option (List String)) = some ss := hss
        injection hss with h
        subst h
        cases v with
        | str s0 =>
          replace hv : (some s0 : Option String) = some s := hv
          injection hv with h0
          subst h0
          cases hsr : reSearchSplit r s0.data with
          | some mres =>
            refine ⟨if r.hasGroup then g ++ [(pat, s0)] else g, ?_⟩
            simp [fdvLoop, hc, hsr]
          | none =>
            obtain ⟨g2, hg2⟩ := ih ss2 g hvs
            refine ⟨g2, ?_⟩
            simp [fdvLoop, hc, hsr, hg2]
        | bool b => exact Option.noConfusion hv
        | null => exact Option.noConfusion hv
        | list xs => exact Option.noConfusion hv
        | dict kvs => exact Option.noConfusion hv

theorem reSearchGo_isSome (r : RE) :
    ∀ (rem pre : List Char),
      (reSearchGo r pre rem).isSome =
        rem.tails.any (fun t => !((reMatch (matchFuel r t) r t).isEmpty)) := by
  intro rem
  induction rem with
  | nil =>
    intro pre
    cases hm : reMatch (matchFuel r []) r [] with
    | nil => simp [reSearchGo, hm]
    | cons x xs => simp [reSearchGo, hm]
  | cons c cs ih =>
    intro pre
    cases hm : reMatch (matchFuel r (c :: cs)) r (c :: cs) with
    | nil => simp [reSearchGo, hm, ih]
    | cons x xs =>
      obtain ⟨cx, rx, gx⟩ := x
      simp [reSearchGo, hm]

/-- C3: `find_diff_value` takes the document's value as one string
candidate, or a list of string candidates, and tests the regex by
`re.search` — unanchored substring search, a match may start at any
position, no full match required — against each candidate in turn,
returning true exactly when some candidate matches (and the first matching
candidate ends the scan); concretely, regex `f29` matches document value
`platform-f29-extra`. -/
theorem find_diff_value_substring_search :
    (∀ (pat : String) (r : RE) (v : Value) (ss : List String) (g : GState),
      compileRE pat = some r →
      (strCandidates v).mapM valAsStr = some ss →
      ∃ g2, find_diff_value (.str pat) v g =
        .ok (ss.any (fun s => (reSearchSplit r s.data).isSome), g2)) ∧
    (∀ (r : RE) (s : List Char),
      (reSearchSplit r s).isSome =
        s.tails.any (fun t => !((reMatch (matchFuel r t) r t).isEmpty))) ∧
    find_diff_value (.str "f29") (.str "platform-f29-extra") [] = .ok (true, []) := by
  refine ⟨?_, ?_, rfl⟩
  · intro pat r v ss g hc hss
    rw [find_diff_value_eq_fdvLoop]
    exact fdvLoop_any pat r hc (strCandidates v) ss g hss
  · intro r s
    exact reSearchGo_isSome r s []

/-- Witness for C3: the candidate characterization applied to a concrete
two-candidate list where only the second candidate matches. -/
theorem find_diff_value_substring_search_witness :
    ∃ g2, find_diff_value (.str "f29")
        (.list [.str "aaa", .str "platform-f29-extra"]) [] = .ok (true, g2) := by
  obtain ⟨g2, hg⟩ := find_diff_value_substring_search.1 "f29"
    (RE.seq (.lit 'f') (.seq (.lit '2') (.seq (.lit '9') .eps)))
    (.list [.str "aaa", .str "platform-f29-extra"])
    ["aaa", "platform-f29-extra"] [] rfl rfl
  refine ⟨g2, ?_⟩
  rw [hg]
  rfl

/-- C1 counterexample: with rule regex `(?P<ver>f\d+)`, destinations
template `tag-\g<ver>` and document value `xf29y`, the code's destination
is `xtag-f29y`: `re.sub(regex, destinations, value)` replaces the regex
match INSIDE the matched value with the expanded template, so surrounding
text of the value survives.  Substituting the captured groups
(`ver = f29`) into the destinations template would instead give `tag-f29`.
The two differ, refuting "the destination tag is obtained by substituting
the captured groups ... into the destinations template" as a general
description; it holds only when the regex consumes the entire value. -/
theorem matchRule_template_subst_counterexample :
    matchRule namedGroupRule (streamDoc "xf29y")
      = .ok ⟨true, some (.str "xtag-f29y")⟩ ∧
    expandTF ("tag-\\g<ver>".length + 1) "tag-\\g<ver>".data [("ver", "f29")]
      = .ok "tag-f29".data ∧
    "xtag-f29y" ≠ "tag-f29" :=
  ⟨rfl, rfl, by decide⟩

/-- C1 (amended): when every rule property matched and the evaluation
recorded named-group `(regex, value)` pairs, the destination tag comes from
the LAST recorded pair only, in property-iteration order: it is
`re.sub(regex, destinations, value)` of that pair — each regex match in the
recorded value replaced by the destinations template with that match's
captured groups substituted (exactly the substituted template whenever the
regex consumes the whole value, as in `f29` ↦ `tag-f29`) — and earlier
pairs are substituted but discarded; with no recorded pair the destination
is the literal `destinations` field unchanged. -/
theorem matchRule_last_pair_dest :
    (∀ (data : RuleData) (m : Value) (props : List (String × Value))
      (pms : List Bool) (g : GState) (r0 v0 : String) (dest : Value) (t : String),
      ruleOf data = some (.dict props) →
      matchProps props m [] [] = .ok (pms, g) →
      pms.all (fun b => b) = true →
      lookupKV data "destinations" = some dest →
      g.getLast? = some (r0, v0) →
      (∀ p ∈ g, ∃ s, reSubV p.1 dest p.2 = .ok s) →
      reSubV r0 dest v0 = .ok t →
      matchRule data m = .ok ⟨true, some (.str t)⟩) ∧
    (∀ (data : RuleData) (m : Value) (props : List (String × Value))
      (pms : List Bool) (dest : Value),
      ruleOf data = some (.dict props) →
      matchProps props m [] [] = .ok (pms, []) →
      pms.all (fun b => b) = true →
      lookupKV data "destinations" = some dest →
      matchRule data m = .ok ⟨true, some dest⟩) := by
  constructor
  · intro data m props pms g r0 v0 dest t hrule hprops hall hdest hlast hforall hsub
    obtain ⟨ts, hts⟩ := exceptMapM_ok_of_forall (fun p => reSubV p.1 dest p.2) g hforall
    obtain ⟨b, hb, htslast⟩ :=
      exceptMapM_last (fun p => reSubV p.1 dest p.2) g ts (r0, v0) hts hlast
    have hb2 : reSubV r0 dest v0 = .ok b := hb
    rw [hsub] at hb2
    injection hb2 with htb
    subst htb
    cases g with
    | nil => exact absurd hlast (by simp)
    | cons p0 gr =>
      simp only [matchRule, hrule, hprops, hall, hdest, eq_self_iff_true, if_true,
        hts, htslast]
  · intro data m props pms dest hrule hprops hall hdest
    simp [matchRule, hrule, hprops, hall, hdest]

/-- Witness for C1: the named-group rule applied to `data.stream = f29`
resolves the destination through the recorded pair to `tag-f29`. -/
theorem matchRule_last_pair_dest_witness :
    matchRule namedGroupRule (streamDoc "f29") = .ok ⟨true, some (.str "tag-f29")⟩ :=
  matchRule_last_pair_dest.1 namedGroupRule (streamDoc "f29")
    [("stream", .str "(?P<ver>f\\d+)")] [true] [("(?P<ver>f\\d+)", "f29")]
    "(?P<ver>f\\d+)" "f29" (.str "tag-\\g<ver>") "tag-f29"
    rfl rfl rfl rfl rfl
    (by intro p hp
        simp only [List.mem_singleton] at hp
        subst hp
        exact ⟨"tag-f29", rfl⟩)
    rfl

/-- A second no-predicate rule with a distinct destination tag. -/
def noRuleRuleB : RuleData :=
  [("id", .str "r-b"), ("type", .str "module"),
   ("destinations", .str "tag-b")]

/-- A third no-predicate rule duplicating `noRuleRule`'s destination tag. -/
def noRuleRuleC : RuleData :=
  [("id", .str "r-c"), ("type", .str "module"),
   ("destinations", .str "tag-any")]

theorem rule_matches_of_forall (m : Value) (f : RuleData → RuleMatch) :
    ∀ rds : List RuleData,
      (∀ rd ∈ rds,
        Except.bind (ruleDefInit rd) (fun d => matchRule d m) = .ok (f rd)) →
      rule_matches_of rds m = .ok ((rds.map f).filter (fun mt => mt.matched)) := by
  intro rds
  induction rds with
  | nil => intro _; rfl
  | cons rd rest ih =>
    intro hall
    have hrd := hall rd (by simp)
    cases hinit : ruleDefInit rd with
    | error err =>
      rw [hinit] at hrd
      exact Except.noConfusion hrd
    | ok d =>
      rw [hinit] at hrd
      replace hrd : matchRule d m = .ok (f rd) := hrd
      have hrest := ih (fun rd2 h2 => hall rd2 (List.mem_cons_of_mem rd h2))
      cases hfm : (f rd).matched with
      | true => simp [rule_matches_of, hinit, hrd, hrest, List.filter_cons, hfm]
      | false => simp [rule_matches_of, hinit, hrd, hrest, List.filter_cons, hfm]

/-- C7: the rule-evaluation core of `handle` evaluates every rule in order,
discards non-matching outcomes via their boolean truthiness, and collects
the surviving outcomes' destination tags into a flat list that preserves
rule-definition order and performs no deduplication; concretely, of three
rules where the middle one does not match, both remaining tags are
collected in rule order, and two rules with the same destination yield the
tag twice. -/
theorem handle_tags_order_no_dedup :
    (∀ (rds : List RuleData) (m : Value) (f : RuleData → RuleMatch),
      (∀ rd ∈ rds,
        Except.bind (ruleDefInit rd) (fun d => matchRule d m) = .ok (f rd)) →
      dest_tags_of rds m =
        .ok (((rds.map f).filter (fun mt => mt.matched)).map
          (fun mt => mt.dest_tag))) ∧
    dest_tags_of [noRuleRule, scratchRule, noRuleRuleB] scratchDocAbsent =
      .ok [some (.str "tag-any"), some (.str "tag-b")] ∧
    dest_tags_of [noRuleRule, noRuleRuleC] (.dict []) =
      .ok [some (.str "tag-any"), some (.str "tag-any")] := by
  refine ⟨?_, ?_, ?_⟩
  · intro rds m f hall
    have h := rule_matches_of_forall m f rds hall
    simp [dest_tags_of, h]
  · rfl
  · rfl

/-- Witness for C7: the order-preserving collection applied to one concrete
matching rule. -/
theorem handle_tags_order_no_dedup_witness :
    dest_tags_of [noRuleRule] (.dict []) = .ok [some (.str "tag-any")] := by
  have h := handle_tags_order_no_dedup.1 [noRuleRule] (.dict [])
    (fun _ => ⟨true, some (.str "tag-any")⟩)
    (by intro rd hrd
        simp only [List.mem_singleton] at hrd
        subst hrd
        rfl)
  simpa using h
